import Mathlib

/-!
Verification of the leggi-regionali-scraper repository (one web scraper per
Italian region).  Python strings are modelled as lists of characters, Python
regular-expression searches as hand-compiled executable matchers with
`re.search`'s leftmost-first semantics, file systems and progress state as
explicit lists threaded through the step functions, and external effects
(HTTP responses, PDF parsing, browser downloads) as oracle parameters.
Only ASCII case conversion is modelled; all case-sensitive text handled by
the scripts is ASCII-cased.
-/

set_option maxRecDepth 8000

namespace LeggiScraper

/-- Python strings are modelled as lists of characters. -/
abbrev Str := List Char

/-- Embed a Lean string literal into the character-list model. -/
def str (s : String) : Str := s.data

/-- Python `\s` (ASCII part): space, tab, newline, carriage return,
vertical tab, form feed. -/
def pyIsSpace (c : Char) : Bool :=
  decide (c = ' ' ∨ c = '\t' ∨ c = '\n' ∨ c = '\r' ∨
    c = Char.ofNat 11 ∨ c = Char.ofNat 12)

/-- Python `str.lower`, restricted to ASCII letters (all cased text the
scrapers compare is ASCII). -/
def pyLower (l : Str) : Str := l.map Char.toLower

/-- Python `str.strip()`: drop leading and trailing whitespace. -/
def pyStrip (l : Str) : Str :=
  ((l.dropWhile pyIsSpace).reverse.dropWhile pyIsSpace).reverse

/-- Python `str.split()` with no argument: split on whitespace runs,
dropping empty pieces. -/
def pyWords (l : Str) : List Str :=
  (l.foldr (fun c acc =>
    if pyIsSpace c then [] :: acc
    else
      match acc with
      | [] => [[c]]
      | w :: ws => (c :: w) :: ws) []).filter (fun w => !w.isEmpty)

/-- Leftmost-first scan of `re.search`: try the pattern matcher `p` at every
start position (suffix), earliest first, the empty suffix included. -/
def findSuffix {α : Type} (p : Str → Option α) : Str → Option α
  | [] => p []
  | c :: rest =>
    match p (c :: rest) with
    | some a => some a
    | none => findSuffix p rest

/-- Semantics of Python `dict.fromkeys`: keep the first occurrence of each
element, in order.  `seen` accumulates the keys already emitted. -/
def keepFirstsGo {α : Type} [DecidableEq α] (seen : List α) : List α → List α
  | [] => []
  | x :: xs =>
    if x ∈ seen then keepFirstsGo seen xs
    else x :: keepFirstsGo (x :: seen) xs

/-- `list(dict.fromkeys(l))`: first-occurrence deduplication. -/
def keepFirsts {α : Type} [DecidableEq α] (l : List α) : List α :=
  keepFirstsGo [] l

/-- A loop over work items that appends each item's produced row (if any)
to an accumulator and carries on regardless of items that produce
nothing. -/
def appendLoop {α β : Type} (f : α → Option β) (items : List α)
    (acc : List β) : List β :=
  items.foldl (fun d it =>
    match f it with
    | some r => d ++ [r]
    | none => d) acc

/-- Python `needle in hay` on strings: substring containment. -/
def containsSub (hay needle : Str) : Bool :=
  hay.tails.any (fun t => t.take needle.length == needle)

/-- Consume an exact string at the head of the input, returning the rest. -/
def parseExact (pat t : Str) : Option Str :=
  if t.take pat.length = pat then some (t.drop pat.length) else none

/-- Consume an exact (lowercase) string case-insensitively, returning the
matched text as it appeared together with the rest. -/
def parseCI (pat t : Str) : Option (Str × Str) :=
  if pyLower (t.take pat.length) = pat then
    some (t.take pat.length, t.drop pat.length)
  else none

/-- Regex `\s+`: consume at least one whitespace character, greedily. -/
def parseWs1 (t : Str) : Option Str :=
  match t with
  | c :: rest => if pyIsSpace c then some (rest.dropWhile pyIsSpace) else none
  | [] => none

/-- Regex `\d{n}`: exactly `n` decimal digits, returned with the rest. -/
def parseDigits (n : Nat) (t : Str) : Option (Str × Str) :=
  let ds := t.take n
  if ds.length = n && ds.all Char.isDigit then some (ds, t.drop n) else none

/-- The value of a nonempty digit string. -/
def digitsToNat (l : Str) : Nat :=
  l.foldl (fun n c => n * 10 + (c.toNat - '0'.toNat)) 0

/-- Decimal rendering of a natural number (Python `str(n)`). -/
def natStr (n : Nat) : Str := Nat.toDigits 10 n

/-- The leftmost maximal digit run of a string — `re.search(r"(\d+)", t)`. -/
def firstDigitRun (t : Str) : Option Str :=
  let r := t.dropWhile (fun c => !c.isDigit)
  let ds := r.takeWhile Char.isDigit
  if ds.isEmpty then none else some ds

/-- Python `t.endswith(suf)`. -/
def endsWithStr (suf t : Str) : Bool :=
  t.drop (t.length - suf.length) == suf

/-- The Italian month-name table that the scripts define identically
(`ITALIAN_MONTHS` in Lombardia, `MONTH_MAP` in Valle d'Aosta, ...),
in source order. -/
def italianMonthTable : List (Str × Str) :=
  [(str "gennaio", str "01"), (str "febbraio", str "02"),
   (str "marzo", str "03"), (str "aprile", str "04"),
   (str "maggio", str "05"), (str "giugno", str "06"),
   (str "luglio", str "07"), (str "agosto", str "08"),
   (str "settembre", str "09"), (str "ottobre", str "10"),
   (str "novembre", str "11"), (str "dicembre", str "12")]

/-- The month names in the order of the regex alternation. -/
def monthNames : List Str := italianMonthTable.map (fun p => p.1)

/-- A LawRecord row as accumulated by the scripts:
Region, Law Title, Law Number, Date, Filename. -/
structure Rec where
  region : Str
  title : Str
  num : Str
  date : Str
  filename : Str
deriving DecidableEq

/-! ## Campania (`src/Campania/Campania.py`) -/

namespace Campania

def BASE_URL : Str := str "https://www.cr.campania.it"

/-- `make_absolute` (lines 71-72). -/
def make_absolute (url : Str) : Str :=
  if url.take 4 = str "http" then url else BASE_URL ++ url

/-- The page loop of `collect_detail_links` (lines 77-127).  `site page` is
the list of `href` attributes of the `a[href*='dettaglio-documento']`
anchors of that listing page (`none` for an anchor with no `href`); network
errors, sleeps and the progress bar are not modelled.  The second component
counts the listing pages fetched.  `fuel` is the number of iterations left
in `for page in range(1, 150)`. -/
def collectGo (site : Nat → List (Option Str)) :
    Nat → Nat → Nat → List Str → List Str × Nat
  | 0, _, _, acc => (acc, 0)
  | fuel + 1, page, streak, acc =>
    let cards := site page
    if cards.isEmpty then
      if streak + 1 ≥ 3 then (acc, 1)
      else
        let r := collectGo site fuel (page + 1) (streak + 1) acc
        (r.1, r.2 + 1)
    else
      let r := collectGo site fuel (page + 1) 0
        (acc ++ (cards.filterMap id).map make_absolute)
      (r.1, r.2 + 1)

/-- The raw link list accumulated over the pages, duplicates included. -/
def gatheredLinks (site : Nat → List (Option Str)) : List Str :=
  (collectGo site 149 1 0 []).1

/-- `collect_detail_links` (lines 77-127): the gathered links after
`list(dict.fromkeys(links))`. -/
def collect_detail_links (site : Nat → List (Option Str)) : List Str :=
  keepFirsts (gatheredLinks site)

/-- One turn of the download loop of `main` (lines 240-244): a completed
future's result (if any) is appended to `rows` and the whole list is
written over the Excel file.  State: (in-memory rows, file contents). -/
def mainStep (st : List Rec × List Rec) (res : Option Rec) :
    List Rec × List Rec :=
  match res with
  | none => st
  | some r => (st.1 ++ [r], st.1 ++ [r])

/-- The whole download loop of `main` over the completed futures. -/
def mainLoop (init : List Rec × List Rec) (results : List (Option Rec)) :
    List Rec × List Rec :=
  results.foldl mainStep init

end Campania

/-! ## Calabria (`src/Calabria/Calabria.py`) -/

namespace Calabria

def REGION : Str := str "Calabria"

/-- The observable part of the `requests.get` response in `fetch_pdf`:
HTTP status, whether the body starts with `%PDF`, the Italian date found
by regex in the `Content-Disposition` header, and the date/title recovered
from the PDF body by `extract_date_from_pdf` / `extract_title_from_pdf`
(the empty title models both helpers returning nothing usable). -/
structure HttpResp where
  status : Nat
  isPdf : Bool
  cdDate : Option Str
  pdfDate : Option Str
  pdfTitle : Str

/-- The external world of one `fetch_pdf` call: the response (`none`
models `requests.get` raising) and the locale-dependent
`italian_date_to_iso` parser. -/
structure Env where
  resp : Option HttpResp
  toIso : Str → Option Str

/-- The persistent state: the `done_keys` progress list and the PDF files
already on disk. -/
structure St where
  doneKeys : List Str
  disk : List Str
deriving DecidableEq

/-- What one `fetch_pdf` call returned and did: the `(record, found)`
return value, the new state, whether the HTTP request was issued, and the
file written (if any). -/
structure FetchOut where
  record : Option Rec
  found : Bool
  st : St
  didHttpGet : Bool
  written : Option Str
deriving DecidableEq

/-- Lines 104-118 of `fetch_pdf`: the (ISO date, display date) pair, from
the `Content-Disposition` date if present, else the PDF-body date, with
the year-based fallback when neither parses. -/
def fetchDate (env : Env) (r : HttpResp) (year : Nat) : Str × Str :=
  let dateText0 : Option Str :=
    match r.cdDate with
    | some d => some d
    | none => r.pdfDate
  let isoOpt : Option Str :=
    match dateText0 with
    | some d => env.toIso d
    | none => none
  match isoOpt with
  | some i => (i, dateText0.getD [])
  | none => (natStr year ++ str "-01-01", natStr year)

/-- Lines 120-123 of `fetch_pdf`: the title, with its fallback. -/
def fetchTitle (r : HttpResp) (lawNum : Nat) : Str :=
  if r.pdfTitle.isEmpty then str "Legge Regionale n. " ++ natStr lawNum
  else r.pdfTitle

/-- Line 125 of `fetch_pdf`: the target filename. -/
def fetchFilename (env : Env) (r : HttpResp) (year lawNum : Nat) : Str :=
  REGION ++ str "_" ++ natStr lawNum ++ str "_" ++
    (fetchDate env r year).1 ++ str ".pdf"

/-- Lines 125-140 of `fetch_pdf`: the success path — write the file
unless it already exists, mark the key done, return the record. -/
def successOut (env : Env) (r : HttpResp) (year lawNum : Nat) (st : St) :
    FetchOut :=
  let key := natStr year ++ str "_" ++ natStr lawNum
  let filename := fetchFilename env r year lawNum
  let record : Rec :=
    ⟨REGION, fetchTitle r lawNum, natStr lawNum, (fetchDate env r year).2,
      filename⟩
  if filename ∈ st.disk then
    ⟨some record, true, ⟨st.doneKeys ++ [key], st.disk⟩, true, none⟩
  else
    ⟨some record, true, ⟨st.doneKeys ++ [key], st.disk ++ [filename]⟩,
      true, some filename⟩

/-- `fetch_pdf` (lines 88-144). -/
def fetch_pdf (env : Env) (year lawNum : Nat) (st : St) : FetchOut :=
  let key := natStr year ++ str "_" ++ natStr lawNum
  if key ∈ st.doneKeys then ⟨none, false, st, false, none⟩
  else
    match env.resp with
    | none => ⟨none, false, st, true, none⟩
    | some r =>
      if r.status ≠ 200 then ⟨none, false, st, true, none⟩
      else if !r.isPdf then ⟨none, false, st, true, none⟩
      else successOut env r year lawNum st

/-- The per-year Excel save (lines 185-191): when the year produced
records, the existing file (if present) is read back, the year's records
are appended to it, and the file is rewritten whole.  The result is the
new file contents. -/
def year_save (oldFile : Option (List Rec)) (yearRecords : List Rec) :
    List Rec :=
  match oldFile with
  | some old => old ++ yearRecords
  | none => yearRecords

/-- Sequential rendition of the per-year probing loop (lines 159-177):
the worker pool is modelled as probing law numbers one at a time; `probe n`
tells whether the site serves a PDF for law number `n`.  Returns the law
number at which the loop stopped, or `none` when `fuel` iterations did not
reach `MAX_CONSECUTIVE_MISSES = 10`. -/
def yearLoop (probe : Nat → Bool) : Nat → Nat → Nat → Option Nat
  | 0, _, _ => none
  | fuel + 1, lawNum, misses =>
    if misses ≥ 10 then some lawNum
    else if probe lawNum then yearLoop probe fuel (lawNum + 1) 0
    else yearLoop probe fuel (lawNum + 1) (misses + 1)

end Calabria

/-! ## Basilicata (`src/BASILICATA/Basilicata.py`) -/

namespace Basilicata

def REGION_NAME : Str := str "Basilicata"

/-- `clean_text` (lines 22-23): `" ".join(text.split()).strip()`. -/
def clean_text (t : Str) : Str :=
  pyStrip (List.intercalate (str " ") (pyWords t))

/-- The pattern `(\d{2})/(\d{2})/(\d{4})` at one start position, returning
the day, month and year digit groups. -/
def dateHere (t : Str) : Option (Str × Str × Str) :=
  match t with
  | d1 :: d2 :: '/' :: m1 :: m2 :: '/' :: y1 :: y2 :: y3 :: y4 :: _ =>
    if [d1, d2, m1, m2, y1, y2, y3, y4].all Char.isDigit then
      some ([d1, d2], [m1, m2], [y1, y2, y3, y4])
    else none
  | _ => none

/-- The anchored pattern `^(n\.? ?)?\d+$` of `get_row_data`, applied to
lowercased text (which contains no newline, `clean_text` having removed
them, so `$` is end-of-string).  The optional dot and space are
deterministic: whenever present they must be consumed for the digits to
reach the end. -/
def numForm (t : Str) : Bool :=
  match t with
  | 'n' :: r =>
    let r1 := match r with
      | '.' :: r2 => r2
      | _ => r
    let r2 := match r1 with
      | ' ' :: r3 => r3
      | _ => r1
    !r2.isEmpty && r2.all Char.isDigit
  | _ => !t.isEmpty && t.all Char.isDigit

/-- Python `str.isdigit`, restricted to ASCII digits. -/
def pyIsDigitStr (t : Str) : Bool := !t.isEmpty && t.all Char.isDigit

/-- The accumulator of `get_row_data` (lines 25-61). -/
structure RowData where
  law_num : Str
  date_iso : Str
  excel_date : Str
  cands : List Str
deriving DecidableEq

/-- One column of the row in `get_row_data`'s loop (lines 33-56). -/
def rowStep (st : RowData) (raw : Str) : RowData :=
  let text := clean_text raw
  if text.isEmpty then st
  else
    match findSuffix dateHere text with
    | some (d, m, y) =>
      { st with date_iso := y ++ str "-" ++ m ++ str "-" ++ d,
                excel_date := d ++ str "/" ++ m ++ str "/" ++ y }
    | none =>
      if text.length < 15 then
        match firstDigitRun text with
        | some ds =>
          if !text.contains '/' &&
              (numForm (pyLower text) || pyIsDigitStr text) then
            { st with law_num := ds }
          else { st with cands := st.cands ++ [text] }
        | none => { st with cands := st.cands ++ [text] }
      else { st with cands := st.cands ++ [text] }

/-- Python `max(l, key=len)`: the first longest element. -/
def maxByLen (c : Str) (cs : List Str) : Str :=
  cs.foldl (fun best x => if x.length > best.length then x else best) c

/-- `get_row_data` (lines 25-61): returns
(law number, ISO date, display date, title). -/
def get_row_data (cols : List Str) : Str × Str × Str × Str :=
  let st := cols.foldl rowStep
    ⟨str "0", str "0000-00-00", str "Unknown", []⟩
  let title := match st.cands with
    | [] => str "Unknown"
    | c :: cs => maxByLen c cs
  (st.law_num, st.date_iso, st.excel_date, title)

/-- The filename built at line 166. -/
def filename (law_num date_iso : Str) : Str :=
  REGION_NAME ++ str "_" ++ law_num ++ str "_" ++ date_iso ++ str ".pdf"

/-- The periodic Excel save (lines 206-207) and the final save in
`finally` (lines 246-248): the whole in-memory `data_list` is written,
replacing the file.  The result is the new file contents. -/
def excel_save (data_list : List Rec) : List Rec := data_list

/-- One attempt at a row of the listing table: either the body raises
somewhere (stale element, lost page, ...) or it completes with the row it
appends, whose Filename column carries the outcome status
(filename, "Error" or "No Button"). -/
def processRowGo (att : Nat → Except Unit Rec) : Nat → Nat → Option Rec
  | 0, _ => none
  | retries + 1, k =>
    match att k with
    | .ok r => some r
    | .error _ => processRowGo att retries (k + 1)

/-- The per-row retry loop (lines 152-213): up to 3 attempts, the first
completing attempt appends its row; when all 3 raise, the row is dropped
without a trace. -/
def processRow (att : Nat → Except Unit Rec) : Option Rec :=
  processRowGo att 3 0

/-- The row loop of `main` (lines 151-213): each row of the page is
processed in turn, appending to `data_list` when an attempt completes. -/
def rowLoop (items : List (Nat → Except Unit Rec)) (data_list : List Rec) :
    List Rec :=
  appendLoop processRow items data_list

/-- What the pagination code can see on a page (lines 215-243): a link
with the next page number, only an ellipsis control, or neither. -/
inductive PageCtl
  | nextNum
  | ellipsisOnly
  | nothing
deriving DecidableEq

/-- The pagination loop of `main` (lines 215-243): click the next page
number if present, else the ellipsis, else stop.  Returns the page the
loop stopped on, or `none` when `fuel` iterations did not stop. -/
def paginate (site : Nat → PageCtl) : Nat → Nat → Option Nat
  | 0, _ => none
  | fuel + 1, page =>
    match site page with
    | .nextNum => paginate site fuel (page + 1)
    | .ellipsisOnly => paginate site fuel (page + 1)
    | .nothing => some page

end Basilicata

/-! ## Lombardia (`src/Lombardia/Lombardy.py`) -/

namespace Lombardia

/-- `ITALIAN_MONTHS[name]` (line 47); every parsed month name is a key. -/
def monthNum (m : Str) : Str :=
  (((italianMonthTable.find? (fun p => p.1 == m)).map (fun p => p.2))).getD
    (str "01")

/-- The month alternation of the regex at line 36, tried in source
order. -/
def parseMonth (t : Str) : Option (Str × Str) :=
  monthNames.findSome? (fun m => (parseExact m t).map (fun r => (m, r)))

/-- The tail `n\.?\s*(\d+)` tried at the current position.  The optional
dot is deterministic: if present it must be consumed (a dot is neither
whitespace nor a digit). -/
def numHere (t : Str) : Option Str :=
  match t with
  | 'n' :: r =>
    let r1 := match r with
      | '.' :: r2 => r2
      | _ => r
    let r2 := r1.dropWhile pyIsSpace
    let ds := r2.takeWhile Char.isDigit
    if ds.isEmpty then none else some ds
  | _ => none

/-- The lazy `.*?` scan towards the law-number tail: try `numHere` at the
current position first, then advance over one character, which `.`
forbids to be a newline. -/
def scanNum : Str → Option Str
  | [] => none
  | c :: rest =>
    match numHere (c :: rest) with
    | some ds => some ds
    | none => if c = '\n' then none else scanNum rest

/-- The greedy day group `(\d{1,2})\s+`: two digits preferred, one digit
otherwise; the following whitespace is part of the attempt so that the
regex's backtracking is reproduced. -/
def dayHere (t : Str) : Option (Str × Str) :=
  match parseDigits 2 t with
  | some (d, r) =>
    match parseWs1 r with
    | some r2 => some (d, r2)
    | none =>
      match parseDigits 1 t with
      | some (d1, r1) => (parseWs1 r1).map (fun r2 => (d1, r2))
      | none => none
  | none =>
    match parseDigits 1 t with
    | some (d1, r1) => (parseWs1 r1).map (fun r2 => (d1, r2))
    | none => none

/-- The whole pattern of lines 34-38,
`(\d{1,2})\s+(month)\s+(\d{4}).*?n\.?\s*(\d+)`, at one start position:
returns (day, month, year, law number). -/
def matchHere (t : Str) : Option (Str × Str × Str × Str) :=
  match dayHere t with
  | none => none
  | some (d, r) =>
    match parseMonth r with
    | none => none
    | some (m, r2) =>
      match parseWs1 r2 with
      | none => none
      | some r3 =>
        match parseDigits 4 r3 with
        | none => none
        | some (y, r4) =>
          match scanNum r4 with
          | none => none
          | some law => some (d, m, y, law)

/-- Python `day.zfill(2)`. -/
def zfill2 (d : Str) : Str :=
  if d.length < 2 then List.replicate (2 - d.length) '0' ++ d else d

/-- `extract_from_list_text` (lines 32-50): returns
(law number, ISO date, readable date), or the fallbacks
("Unknown", "0000-00-00", "") when the pattern does not match. -/
def extract_from_list_text (text : Str) : Str × Str × Str :=
  let txt := pyStrip (pyLower text)
  match findSuffix matchHere txt with
  | none => (str "Unknown", str "0000-00-00", [])
  | some (d, m, y, law) =>
    let day := zfill2 d
    let iso := y ++ str "-" ++ monthNum m ++ str "-" ++ day
    let readable := natStr (digitsToNat day) ++ str " " ++ m ++ str " " ++ y
    (law, iso, readable)

end Lombardia

/-! ## Valle d'Aosta (`src/Valle d'Aosta/Aosta.py`) -/

namespace Aosta

/-- A plain apostrophe, as a one-character string. -/
def apo : Str := ['\'']

/-- `ABROGATION_INDICATORS` (lines 29-37), verbatim; note the last entry
keeps an upper-case letter in the source. -/
def ABROGATION_INDICATORS : List Str :=
  [str "(abrogato dalla l.r.",
   str "(abrogata dall" ++ apo ++ str "art.",
   str "(legge abrogata dall" ++ apo ++ str "art",
   str "(abrogato dall" ++ apo ++ str "art.",
   str "(regolamento abrogato dall" ++ apo ++ str "art.",
   str "(abrogata, a decorrere dal",
   str "(Abrogata dal"]

/-- The normalisation of `is_law_abrogated` (lines 67-72): lowercase, then
replace the typographic apostrophes (and the backquote) with `'`. -/
def normalize (t : Str) : Str :=
  (pyLower t).map (fun c =>
    if c = '’' ∨ c = Char.ofNat 96 ∨ c = '‘' then '\'' else c)

/-- `is_law_abrogated` (lines 56-79). -/
def is_law_abrogated (page_text : Str) : Bool :=
  if page_text.isEmpty then false
  else ABROGATION_INDICATORS.any (fun ind =>
    containsSub (normalize page_text) ind)

/-- Candidate matches for the day group `(\d{1,2}°?)`, in the regex's
greedy backtracking order. -/
def dayOptions (t : Str) : List (Str × Str) :=
  (match parseDigits 2 t with
   | some (d, r) =>
     (match r with
      | '°' :: r2 => [(d ++ ['°'], r2), (d, r)]
      | _ => [(d, r)])
   | none => []) ++
  (match parseDigits 1 t with
   | some (d, r) =>
     (match r with
      | '°' :: r2 => [(d ++ ['°'], r2), (d, r)]
      | _ => [(d, r)])
   | none => [])

/-- The case-insensitive month alternation of the date regex
(line 104-107). -/
def parseMonthCI (t : Str) : Option (Str × Str) :=
  monthNames.findSome? (fun m => parseCI m t)

/-- The date pattern `(\d{1,2}°?)\s+(month)\s+(\d{4})` (IGNORECASE) at one
start position: returns (raw day group, month as matched, year). -/
def dateHere (t : Str) : Option (Str × Str × Str) :=
  (dayOptions t).findSome? (fun dr =>
    match parseWs1 dr.2 with
    | none => none
    | some r1 =>
      match parseMonthCI r1 with
      | none => none
      | some (m, r2) =>
        match parseWs1 r2 with
        | none => none
        | some r3 =>
          match parseDigits 4 r3 with
          | some (y, _) => some (dr.1, m, y)
          | none => none)

/-- The law-number pattern `(?:n\.|num\.|numero)\s*(\d+)` (IGNORECASE) at
one start position, alternatives tried in source order. -/
def numHere (t : Str) : Option Str :=
  [str "n.", str "num.", str "numero"].findSome? (fun alt =>
    match parseCI alt t with
    | none => none
    | some (_, r) =>
      let r2 := r.dropWhile pyIsSpace
      let ds := r2.takeWhile Char.isDigit
      if ds.isEmpty then none else some ds)

/-- `MONTH_MAP.get(month_txt.lower(), '01')` (line 113). -/
def monthNumCI (m : Str) : Str :=
  (((italianMonthTable.find? (fun p => p.1 == pyLower m)).map
    (fun p => p.2))).getD (str "01")

/-- Python `f"{n:02d}"`. -/
def pad2 (n : Nat) : Str :=
  if n < 10 then '0' :: natStr n else natStr n

/-- `parse_metadata` (lines 81-125): returns
(clean date, ISO date, law number) with fallbacks
("Unknown", "0000-00-00", "0"). -/
def parse_metadata (header_text : Str) : Str × Str × Str :=
  let dateRes := findSuffix dateHere header_text
  let numRes := findSuffix numHere header_text
  let cleanIso : Str × Str :=
    match dateRes with
    | some (dRaw, m, y) =>
      let day := dRaw.filter (fun c => !(c == '°'))
      (day ++ str " " ++ m ++ str " " ++ y,
       y ++ str "-" ++ monthNumCI m ++ str "-" ++ pad2 (digitsToNat day))
    | none => (str "Unknown", str "0000-00-00")
  let law : Str :=
    match numRes with
    | some ds => ds
    | none => str "0"
  (cleanIso.1, cleanIso.2, law)

/-- How `process_law` (lines 129-244) disposes of one law. -/
inductive Gate
  | abrogatedSkip
  | existsSkip
  | download
deriving DecidableEq

/-- The decision structure of `process_law`: the abrogation gate is
evaluated first on the page text; only non-abrogated laws proceed to the
existing-file check and then the download. -/
def processGate (page_text : Str) (fileExists : Bool) : Gate :=
  if is_law_abrogated page_text then Gate.abrogatedSkip
  else if fileExists then Gate.existsSkip
  else Gate.download

end Aosta

/-! ## Piemonte (`src/Piemonte/Piemonte.py`) -/

namespace Piemonte

/-- The strict pattern `\(\s*Abrogata\s*\)` (IGNORECASE) at one start
position. -/
def abrogataHere (t : Str) : Option Unit :=
  match t with
  | [] => none
  | c :: r =>
    if c = '(' then
      match parseCI (str "abrogata") (r.dropWhile pyIsSpace) with
      | none => none
      | some (_, r2) =>
        match r2.dropWhile pyIsSpace with
        | [] => none
        | c2 :: _ => if c2 = ')' then some () else none
    else none

/-- `is_law_abrogated` (lines 150-214): search the page text for the
parenthesised `Abrogata` pattern, case-insensitively. -/
def is_law_abrogated (page_text : Str) : Bool :=
  (findSuffix abrogataHere page_text).isSome

/-- The outcome of `process_law_worker` (lines 216-331) on a page that
loads: metadata extraction and PDF printing are oracles (`meta` is what
`extract_metadata` would build, `pdfBigEnough` whether the printed file
passes the 2KB check); the abrogation gate decides the skip before any
PDF is generated, and a small PDF leaves the same result after every
retry. -/
def worker (page_text : Str) (meta : Rec) (pdfBigEnough : Bool) :
    Option Rec × Str :=
  if is_law_abrogated page_text then (none, str "Skipped (Abrogated)")
  else if pdfBigEnough then (some meta, str "Downloaded")
  else (none, str "Failed (Empty)")

end Piemonte

/-! ## Veneto (`src/veneto/Veneto.py`) -/

namespace Veneto

def REGION_NAME : Str := str "Veneto"

/-- How the download attempt of lines 223-236 can end. -/
inductive DlOutcome
  | renamed
  | renameTimeout
  | noButton
deriving DecidableEq

/-- How the record built at lines 210-216 leaves the download section
(lines 219-236): it is kept as created when the file already exists or
the download succeeds, while a rename timeout or a missing PDF button
overwrite its Filename field before the append. -/
def finalRecord (r : Rec) (fileExists : Bool) (o : DlOutcome) : Rec :=
  if fileExists then r
  else
    match o with
    | DlOutcome.renamed => r
    | DlOutcome.renameTimeout => { r with filename := str "Failed Download" }
    | DlOutcome.noButton => { r with filename := str "No PDF" }

/-- The visible result of one law iteration (lines 188-241) over the
explicit download directory: the record appended, whether a download was
attempted, and the directory afterwards. -/
structure LawOut where
  record : Rec
  didDownload : Bool
  disk : List Str
deriving DecidableEq

/-- One law iteration (lines 188-241): the existence check at line 219
gates the download attempt. -/
def processLaw (disk : List Str) (r : Rec) (o : DlOutcome) : LawOut :=
  if r.filename ∈ disk then ⟨r, false, disk⟩
  else
    match o with
    | DlOutcome.renamed => ⟨r, true, disk ++ [r.filename]⟩
    | DlOutcome.renameTimeout =>
      ⟨{ r with filename := str "Failed Download" }, true, disk⟩
    | DlOutcome.noButton =>
      ⟨{ r with filename := str "No PDF" }, true, disk⟩

/-- Appending the finished record to `scraped_data` (line 238). -/
def appendStep (scraped : List Rec) (r : Rec) (fe : Bool) (o : DlOutcome) :
    List Rec :=
  scraped ++ [finalRecord r fe o]

/-- An item of the law loop, for the error-handling claim: either the
processing raises somewhere (caught and only logged at lines 242-243) or
it reaches the append with its outcome. -/
inductive ItemRes
  | ok (r : Rec) (fe : Bool) (o : DlOutcome)
  | raised

/-- The record an item contributes, if any. -/
def itemRecord : ItemRes → Option Rec
  | ItemRes.ok r fe o => some (finalRecord r fe o)
  | ItemRes.raised => none

/-- The law loop (lines 188-243): every item is visited; a raise skips
the append and the loop continues with the next law. -/
def lawLoop (items : List ItemRes) (scraped : List Rec) : List Rec :=
  appendLoop itemRecord items scraped

end Veneto

/-! ## Lazio (`src/Lazio/Lazio.py`) -/

namespace Lazio

/-- Worker of `re.sub(r"\s+", " ", t)`: the flag says whether we are
inside a whitespace run whose single space was already emitted. -/
def collapseWsGo : Bool → Str → Str
  | _, [] => []
  | inRun, c :: cs =>
    if pyIsSpace c then
      if inRun then collapseWsGo true cs
      else ' ' :: collapseWsGo true cs
    else c :: collapseWsGo false cs

/-- Python `re.sub(r"\s+", " ", t)`: every maximal whitespace run becomes
a single space. -/
def collapseWs (t : Str) : Str := collapseWsGo false t

/-- The slash replacements of line 36: `/` and `\` become `-`. -/
def dashSlash (c : Char) : Char :=
  if c = '/' ∨ c = '\\' then '-' else c

/-- The characters removed by `re.sub(r'[*:?"<>|]', "", text)`
(line 38). -/
def illegalChars : Str := ['*', ':', '?', '"', '<', '>', '|']

/-- `sanitize_filename_keep_spaces` (lines 27-41); `none` models a `None`
argument, and Python's falsiness check maps both `None` and `""` to
"Unknown". -/
def sanitize_filename_keep_spaces (t : Option Str) : Str :=
  match t with
  | none => str "Unknown"
  | some s =>
    if s.isEmpty then str "Unknown"
    else
      let s1 := s.map dashSlash
      let s2 := s1.filter (fun c => !illegalChars.contains c)
      pyStrip (collapseWs s2)

/-- The metadata dictionary scraped from a detail page. -/
structure Meta where
  title : Str
  number : Str
  date : Str
deriving DecidableEq

/-- Phase 2 of `main` (lines 214-266): the file written for one law page.
`urlId` is the id split out of the URL (`none` when `id=` is absent and
the split raises); `pdfOk` tells whether `save_page_as_pdf` succeeded; on
failure the HTML snapshot with the same stem is written instead. -/
def writtenFile (meta : Meta) (urlId : Option Str) (pdfOk : Bool) : Str :=
  let numRaw : Str :=
    if !(meta.number == str "N/A") && !meta.number.isEmpty then meta.number
    else
      match urlId with
      | some i => str "ID_" ++ i
      | none => str "Unknown"
  let dateRaw : Option Str :=
    if !(meta.date == str "N/A") && !meta.date.isEmpty then some meta.date
    else none
  let safeNum := sanitize_filename_keep_spaces (some numRaw)
  let safeDate : Str :=
    match dateRaw with
    | some d => sanitize_filename_keep_spaces (some d)
    | none => str "unknown_date"
  if pdfOk then str "Lazio_" ++ safeNum ++ str "_" ++ safeDate ++ str ".pdf"
  else str "Lazio_" ++ safeNum ++ str "_" ++ safeDate ++ str ".html"

end Lazio

/-! ## Spec-side predicates and adversarial inputs -/

/-- Claim-side reading of the Piemonte skip marker: an occurrence of
`(Abrogata)` with optional internal whitespace, case-insensitively, and
nothing else between the parentheses. -/
def piemonteMarker (text : Str) : Prop :=
  ∃ pre ws1 core ws2 post,
    text = pre ++ '(' :: (ws1 ++ (core ++ (ws2 ++ ')' :: post))) ∧
    (∀ c ∈ ws1, pyIsSpace c = true) ∧
    (∀ c ∈ ws2, pyIsSpace c = true) ∧
    pyLower core = str "abrogata"

/-- Claim-side reading of first-occurrence deduplication: keep the head
and recursively deduplicate the tail with all copies of the head
removed — the canonical "no duplicates, order of first occurrence" spec,
to be compared with `keepFirsts` from the source. -/
def specDedup {α : Type} [DecidableEq α] : List α → List α
  | [] => []
  | x :: xs => x :: specDedup (xs.filter (fun a => !(a == x)))
termination_by l => l.length
decreasing_by
  simp only [List.length_cons]
  exact Nat.lt_succ_of_le (List.length_filter_le _ _)

/-- Two adjacent output characters are never both spaces. -/
def spacedApart (a b : Char) : Prop := ¬(a = ' ' ∧ b = ' ')

/-- Executable check that a string has no two adjacent spaces. -/
def noDoubleSpace : Str → Bool
  | [] => true
  | [_] => true
  | a :: b :: rest => !(a == ' ' && b == ' ') && noDoubleSpace (b :: rest)

/-- Against a site that always offers a next-page link, Basilicata's
pagination never reaches its stopping condition, whatever the iteration
bound. -/
def basPaginateRunsForever : Prop :=
  ∀ fuel page,
    Basilicata.paginate (fun _ => Basilicata.PageCtl.nextNum) fuel page =
      none

/-- Against a site that serves a PDF for every law number, Calabria's
per-year loop never reaches 10 consecutive misses, whatever the iteration
bound. -/
def calYearLoopRunsForever : Prop :=
  ∀ fuel lawNum,
    Calabria.yearLoop (fun _ => true) fuel lawNum 0 = none

/-! ## Shared lemmas -/

theorem findSuffix_eq_none {α : Type} (p : Str → Option α) (l : Str)
    (h : ∀ s ∈ l.tails, p s = none) : findSuffix p l = none := by
  induction l with
  | nil =>
    have := h [] (by simp)
    simpa [findSuffix] using this
  | cons c rest ih =>
    have hself : p (c :: rest) = none := h _ (by simp)
    have hrest : ∀ s ∈ rest.tails, p s = none := by
      intro s hs
      exact h s (by simpa [List.tails_cons] using Or.inr hs)
    simp [findSuffix, hself, ih hrest]

theorem findSuffix_isSome_iff {α : Type} (p : Str → Option α) (l : Str) :
    (findSuffix p l).isSome = true ↔ ∃ s ∈ l.tails, (p s).isSome = true := by
  induction l with
  | nil => simp [findSuffix]
  | cons c rest ih =>
    cases hpn : p (c :: rest) with
    | none =>
      simp only [findSuffix, hpn]
      rw [ih]
      constructor
      · rintro ⟨s, hs, hps⟩
        refine ⟨s, ?_, hps⟩
        rw [List.tails_cons]
        exact List.mem_cons_of_mem _ hs
      · rintro ⟨s, hs, hps⟩
        rw [List.tails_cons, List.mem_cons] at hs
        rcases hs with rfl | hs
        · rw [hpn] at hps; simp at hps
        · exact ⟨s, hs, hps⟩
    | some a =>
      simp only [findSuffix, hpn, Option.isSome_some, true_iff]
      refine ⟨c :: rest, ?_, by rw [hpn]; rfl⟩
      rw [List.tails_cons]
      exact List.mem_cons_self _ _

theorem mem_keepFirstsGo {α : Type} [DecidableEq α] (l : List α) :
    ∀ (seen : List α) (x : α),
      x ∈ keepFirstsGo seen l ↔ x ∈ l ∧ x ∉ seen := by
  induction l with
  | nil => intro seen x; simp [keepFirstsGo]
  | cons y ys ih =>
    intro seen x
    by_cases hy : y ∈ seen
    · rw [keepFirstsGo, if_pos hy, ih]
      constructor
      · rintro ⟨hx, hns⟩
        exact ⟨List.mem_cons_of_mem _ hx, hns⟩
      · rintro ⟨hx, hns⟩
        rcases List.mem_cons.mp hx with rfl | hx
        · exact absurd hy hns
        · exact ⟨hx, hns⟩
    · rw [keepFirstsGo, if_neg hy]
      constructor
      · intro hx
        rcases List.mem_cons.mp hx with rfl | hx
        · exact ⟨List.mem_cons_self _ _, hy⟩
        · rcases (ih _ _).mp hx with ⟨h1, h2⟩
          refine ⟨List.mem_cons_of_mem _ h1, fun hc => h2 ?_⟩
          exact List.mem_cons_of_mem _ hc
      · rintro ⟨hx, hns⟩
        rcases List.mem_cons.mp hx with rfl | hx
        · exact List.mem_cons_self _ _
        · by_cases hxy : x = y
          · subst hxy; exact List.mem_cons_self _ _
          · refine List.mem_cons_of_mem _ ((ih _ _).mpr ⟨hx, ?_⟩)
            intro hc
            rcases List.mem_cons.mp hc with h | h
            · exact hxy h
            · exact hns h

theorem keepFirstsGo_sublist {α : Type} [DecidableEq α] (l : List α) :
    ∀ seen : List α, List.Sublist (keepFirstsGo seen l) l := by
  induction l with
  | nil => intro seen; simp [keepFirstsGo]
  | cons y ys ih =>
    intro seen
    by_cases hy : y ∈ seen
    · rw [keepFirstsGo, if_pos hy]
      exact (ih seen).cons y
    · rw [keepFirstsGo, if_neg hy]
      exact (ih (y :: seen)).cons₂ y

theorem keepFirstsGo_nodup {α : Type} [DecidableEq α] (l : List α) :
    ∀ seen : List α, (keepFirstsGo seen l).Nodup := by
  induction l with
  | nil => intro seen; simp [keepFirstsGo]
  | cons y ys ih =>
    intro seen
    by_cases hy : y ∈ seen
    · rw [keepFirstsGo, if_pos hy]; exact ih seen
    · rw [keepFirstsGo, if_neg hy]
      refine List.nodup_cons.mpr ⟨fun hc => ?_, ih (y :: seen)⟩
      exact ((mem_keepFirstsGo ys _ y).mp hc).2 (List.mem_cons_self _ _)

theorem keepFirstsGo_eq_specDedup {α : Type} [DecidableEq α]
    (l : List α) :
    ∀ seen : List α,
      keepFirstsGo seen l =
        specDedup (l.filter (fun a => decide (a ∉ seen))) := by
  induction l with
  | nil => intro seen; simp [keepFirstsGo, specDedup]
  | cons x xs ih =>
    intro seen
    by_cases hx : x ∈ seen
    · rw [keepFirstsGo, if_pos hx, List.filter_cons,
        if_neg (by simp [hx]), ih]
    · rw [keepFirstsGo, if_neg hx, List.filter_cons,
        if_pos (by simp [hx]), ih (x :: seen)]
      conv_rhs => rw [specDedup]
      congr 1
      refine congrArg specDedup ?_
      rw [List.filter_filter]
      refine List.filter_congr ?_
      intro a _
      by_cases h1 : a = x
      · simp [h1]
      · by_cases h2 : a ∈ seen
        · simp [h1, h2]
        · simp [h1, h2]

theorem containsSub_iff (hay needle : Str) :
    containsSub hay needle = true ↔
      ∃ pre post, hay = pre ++ needle ++ post := by
  unfold containsSub
  rw [List.any_eq_true]
  constructor
  · rintro ⟨t, ht, heq⟩
    have heq' : t.take needle.length = needle := by simpa using heq
    rcases (List.mem_tails _ _).mp ht with ⟨pre, rfl⟩
    refine ⟨pre, t.drop needle.length, ?_⟩
    conv_lhs => rw [← List.take_append_drop needle.length t]
    rw [heq', List.append_assoc]
  · rintro ⟨pre, post, rfl⟩
    refine ⟨needle ++ post, ?_, ?_⟩
    · exact (List.mem_tails _ _).mpr ⟨pre, by simp⟩
    · simp [List.take_left]

theorem appendLoop_eq_filterMap {α β : Type} (f : α → Option β)
    (items : List α) :
    ∀ acc : List β,
      appendLoop f items acc = acc ++ items.filterMap f := by
  induction items with
  | nil => intro acc; simp [appendLoop]
  | cons it rest ih =>
    intro acc
    unfold appendLoop at ih ⊢
    rw [List.foldl_cons]
    cases hf : f it with
    | none => simp only [hf, ih, List.filterMap_cons, hf]
    | some r =>
      simp only [hf, ih, List.filterMap_cons, hf, List.append_assoc,
        List.singleton_append]

theorem endsWithStr_eq_true_iff (suf t : Str) :
    endsWithStr suf t = true ↔ ∃ pre, t = pre ++ suf := by
  unfold endsWithStr
  rw [beq_iff_eq]
  constructor
  · intro h
    exact ⟨t.take (t.length - suf.length),
      by conv_lhs => rw [← List.take_append_drop (t.length - suf.length) t, h]⟩
  · rintro ⟨pre, rfl⟩
    rw [List.length_append, Nat.add_sub_cancel, List.drop_left]

theorem endsWithStr_append (l suf : Str) :
    endsWithStr suf (l ++ suf) = true :=
  (endsWithStr_eq_true_iff suf (l ++ suf)).mpr ⟨l, rfl⟩

theorem endsWithStr_self (suf : Str) : endsWithStr suf suf = true :=
  (endsWithStr_eq_true_iff suf suf).mpr ⟨[], rfl⟩

theorem endsWithStr_append_left (a t suf : Str)
    (h : endsWithStr suf t = true) : endsWithStr suf (a ++ t) = true := by
  rcases (endsWithStr_eq_true_iff _ _).mp h with ⟨pre, rfl⟩
  exact (endsWithStr_eq_true_iff _ _).mpr ⟨a ++ pre, by simp⟩

theorem campania_mainLoop_spec (results : List (Option Rec)) :
    ∀ rows file : List Rec,
      (Campania.mainLoop (rows, file) results).1 =
        rows ++ results.filterMap id ∧
      (((Campania.mainLoop (rows, file) results).2 = file ∧
          results.filterMap id = []) ∨
        (Campania.mainLoop (rows, file) results).2 =
          (Campania.mainLoop (rows, file) results).1) := by
  induction results with
  | nil => intro rows file; simp [Campania.mainLoop]
  | cons res rest ih =>
    intro rows file
    cases res with
    | none =>
      have e : Campania.mainLoop (rows, file) (none :: rest) =
          Campania.mainLoop (rows, file) rest := rfl
      rw [e]
      have h := ih rows file
      refine ⟨by rw [h.1]; simp, ?_⟩
      rcases h.2 with ⟨h2, h3⟩ | h2
      · exact Or.inl ⟨h2, by simpa using h3⟩
      · exact Or.inr h2
    | some r =>
      have e : Campania.mainLoop (rows, file) (some r :: rest) =
          Campania.mainLoop (rows ++ [r], rows ++ [r]) rest := rfl
      rw [e]
      have h := ih (rows ++ [r]) (rows ++ [r])
      refine ⟨by rw [h.1]; simp, ?_⟩
      rcases h.2 with ⟨h2, h3⟩ | h2
      · right
        rw [h2, h.1, h3]
        simp
      · exact Or.inr h2

/-! ## Claim C9 -/

/-- C9: Campania's `collect_detail_links` returns the collected detail
URLs with no duplicates, and it preserves the order of first occurrence
of each URL as collected across the listing pages: the result is a
duplicate-free sublist of the gathered link sequence containing exactly
its URLs, and it equals the canonical first-occurrence deduplication of
that sequence. -/
theorem C9_campania_collect_nodup_order (site : Nat → List (Option Str)) :
    (Campania.collect_detail_links site).Nodup ∧
    List.Sublist (Campania.collect_detail_links site)
      (Campania.gatheredLinks site) ∧
    (∀ x, x ∈ Campania.collect_detail_links site ↔
      x ∈ Campania.gatheredLinks site) ∧
    Campania.collect_detail_links site =
      specDedup (Campania.gatheredLinks site) := by
  refine ⟨keepFirstsGo_nodup _ _, keepFirstsGo_sublist _ _,
    fun x => ?_, ?_⟩
  · rw [Campania.collect_detail_links, keepFirsts, mem_keepFirstsGo]
    simp
  · have h := keepFirstsGo_eq_specDedup
      (Campania.gatheredLinks site) []
    simpa using h

/-! ## Claim C3 -/

/-- C3 counterexample: Calabria's per-year save does not overwrite the
spreadsheet with the in-memory record list: with one row already in the
file and one new row in memory, the file ends up holding both rows — the
flush appends to the existing spreadsheet contents. -/
theorem C3_counterexample_calabria_append :
    Calabria.year_save
        (some [⟨str "Calabria", str "Titolo uno", str "1", str "1971",
          str "Calabria_1_1971-01-01.pdf"⟩])
        [⟨str "Calabria", str "Titolo due", str "2", str "1972",
          str "Calabria_2_1972-01-01.pdf"⟩] =
      [⟨str "Calabria", str "Titolo uno", str "1", str "1971",
        str "Calabria_1_1971-01-01.pdf"⟩,
       ⟨str "Calabria", str "Titolo due", str "2", str "1972",
        str "Calabria_2_1972-01-01.pdf"⟩] ∧
    Calabria.year_save
        (some [⟨str "Calabria", str "Titolo uno", str "1", str "1971",
          str "Calabria_1_1971-01-01.pdf"⟩])
        [⟨str "Calabria", str "Titolo due", str "2", str "1972",
          str "Calabria_2_1972-01-01.pdf"⟩] ≠
      [⟨str "Calabria", str "Titolo due", str "2", str "1972",
        str "Calabria_2_1972-01-01.pdf"⟩] := by
  exact ⟨rfl, by decide⟩

/-- C3 (amended): every flush rewrites the spreadsheet file whole — in
Basilicata and Campania with exactly the in-memory record list, while
Calabria's per-year save writes the previous file contents followed by
the in-memory year records (a logical append performed as
read-concatenate-overwrite). -/
theorem C3_flush_overwrites_amended :
    (∀ data_list : List Rec, Basilicata.excel_save data_list = data_list) ∧
    (∀ (rows0 file0 : List Rec) (results : List (Option Rec)),
      (Campania.mainLoop (rows0, file0) results).1 =
        rows0 ++ results.filterMap id ∧
      (((Campania.mainLoop (rows0, file0) results).2 = file0 ∧
          results.filterMap id = []) ∨
        (Campania.mainLoop (rows0, file0) results).2 =
          (Campania.mainLoop (rows0, file0) results).1)) ∧
    (∀ old yearRecords : List Rec,
      Calabria.year_save (some old) yearRecords = old ++ yearRecords ∧
      Calabria.year_save none yearRecords = yearRecords) := by
  refine ⟨fun _ => rfl, ?_, fun _ _ => ⟨rfl, rfl⟩⟩
  intro rows0 file0 results
  exact campania_mainLoop_spec results rows0 file0

/-! ## Claim C6 -/

/-- C6 counterexample: in Veneto a record created with the derived
filename is persisted with Filename "Failed Download" when the download
rename times out: the field value set at creation is not the value
persisted. -/
theorem C6_counterexample_veneto_mutation :
    (Veneto.finalRecord
      ⟨str "Veneto", str "Titolo", str "5", str "12 marzo 2020",
        str "Veneto_5_2020-03-12.pdf"⟩
      false Veneto.DlOutcome.renameTimeout).filename =
      str "Failed Download" ∧
    str "Failed Download" ≠ str "Veneto_5_2020-03-12.pdf" := by
  exact ⟨rfl, by decide⟩

/-- C6 (amended): the in-memory list is append-only — processing one law
appends exactly one record and never changes the records already in the
list — and a record's Region, Title, Number and Date are persisted as
created; only Veneto's Filename field may be overwritten
("Failed Download" / "No PDF") between creation and append, and the whole
record is persisted as created when the file already exists or the
download succeeds. -/
theorem C6_append_only_amended :
    (∀ (scraped : List Rec) (r : Rec) (fe : Bool) (o : Veneto.DlOutcome),
      Veneto.appendStep scraped r fe o =
        scraped ++ [Veneto.finalRecord r fe o] ∧
      (Veneto.appendStep scraped r fe o).take scraped.length = scraped) ∧
    (∀ (r : Rec) (fe : Bool) (o : Veneto.DlOutcome),
      (Veneto.finalRecord r fe o).region = r.region ∧
      (Veneto.finalRecord r fe o).title = r.title ∧
      (Veneto.finalRecord r fe o).num = r.num ∧
      (Veneto.finalRecord r fe o).date = r.date) ∧
    (∀ (r : Rec) (o : Veneto.DlOutcome),
      Veneto.finalRecord r true o = r ∧
      Veneto.finalRecord r false Veneto.DlOutcome.renamed = r) := by
  refine ⟨fun scraped r fe o => ⟨rfl, by simp [Veneto.appendStep]⟩,
    fun r fe o => ?_, fun r o => ?_⟩
  · cases fe <;> cases o <;> simp [Veneto.finalRecord]
  · cases o <;> simp [Veneto.finalRecord]

/-! ## Claim C7 -/

/-- C7 counterexample: a Basilicata row whose three attempts all raise is
dropped with no status row recorded anywhere — yet the loop continues and
the following row is still processed. -/
theorem C7_counterexample_basilicata_silent_drop :
    Basilicata.rowLoop
      [fun _ => Except.error (),
       fun _ => Except.ok ⟨str "Basilicata", str "Titolo", str "7",
         str "01/02/2003", str "Basilicata_7_2003-02-01.pdf"⟩] [] =
      [⟨str "Basilicata", str "Titolo", str "7", str "01/02/2003",
        str "Basilicata_7_2003-02-01.pdf"⟩] := by
  rfl

/-- C7 (amended): a failure while processing one law item never aborts
the run — each loop's result is the concatenation of the independent
per-item outcomes, so every item after a failing one is still processed;
an item that completes contributes its status row, but a Basilicata item
whose three attempts all raise (or a Veneto item that raises) contributes
nothing to the rows or counters. -/
theorem C7_failures_never_abort_amended :
    (∀ (items : List (Nat → Except Unit Rec)) (data : List Rec),
      Basilicata.rowLoop items data =
        data ++ items.filterMap Basilicata.processRow) ∧
    (∀ (items : List Veneto.ItemRes) (scraped : List Rec),
      Veneto.lawLoop items scraped =
        scraped ++ items.filterMap Veneto.itemRecord) ∧
    (∀ att : Nat → Except Unit Rec,
      att 0 = Except.error () → att 1 = Except.error () →
      att 2 = Except.error () → Basilicata.processRow att = none) ∧
    (∀ (att : Nat → Except Unit Rec) (r : Rec),
      att 0 = Except.ok r → Basilicata.processRow att = some r) := by
  refine ⟨fun items data => ?_, fun items scraped => ?_,
    fun att h0 h1 h2 => ?_, fun att r h0 => ?_⟩
  · exact appendLoop_eq_filterMap Basilicata.processRow items data
  · exact appendLoop_eq_filterMap Veneto.itemRecord items scraped
  · simp [Basilicata.processRow, Basilicata.processRowGo, h0, h1, h2]
  · simp [Basilicata.processRow, Basilicata.processRowGo, h0]

/-- Witness for the amended C7 at concrete inputs. -/
theorem C7_failures_never_abort_witness :
    Basilicata.processRow (fun _ => Except.error ()) = none ∧
    Basilicata.processRow (fun _ => Except.ok
      ⟨str "Basilicata", str "T", str "1", str "d", str "f"⟩) = some
      ⟨str "Basilicata", str "T", str "1", str "d", str "f"⟩ ∧
    Basilicata.rowLoop [] [] = [] := by
  refine ⟨C7_failures_never_abort_amended.2.2.1 _ rfl rfl rfl,
    C7_failures_never_abort_amended.2.2.2 _ _ rfl, ?_⟩
  simpa using C7_failures_never_abort_amended.1 [] []

/-! ## Claim C4 -/

/-- C4 counterexample: when `save_page_as_pdf` fails, Lazio writes an
HTML snapshot into the output directory: the written file is
`Lazio_7_26 giugno 2025.html`, which does not have the `.pdf` form. -/
theorem C4_counterexample_lazio_html :
    Lazio.writtenFile ⟨str "Titolo", str "7", str "26 giugno 2025"⟩
        none false =
      str "Lazio_7_26 giugno 2025.html" ∧
    endsWithStr (str ".pdf") (str "Lazio_7_26 giugno 2025.html") =
      false := by
  exact ⟨rfl, by decide⟩

/-- C4 (amended): the PDF names are built deterministically as
Region_LawNumber_Date.pdf from the per-script region constant and the
extracted fields — but not every file written to the output directory is
a `.pdf`: when the PDF print fails, Lazio writes an `.html` snapshot with
the same stem instead. -/
theorem C4_filename_scheme_amended :
    (∀ law_num date_iso : Str,
      Basilicata.filename law_num date_iso =
        str "Basilicata_" ++ law_num ++ str "_" ++ date_iso ++
          str ".pdf" ∧
      endsWithStr (str ".pdf")
        (Basilicata.filename law_num date_iso) = true) ∧
    (∀ (meta : Lazio.Meta) (urlId : Option Str),
      endsWithStr (str ".pdf") (Lazio.writtenFile meta urlId true) =
        true ∧
      endsWithStr (str ".html") (Lazio.writtenFile meta urlId false) =
        true) := by
  constructor
  · intro law_num date_iso
    have e : Basilicata.filename law_num date_iso =
        str "Basilicata_" ++ law_num ++ str "_" ++ date_iso ++
          str ".pdf" := by
      show str "Basilicata" ++ str "_" ++ law_num ++ str "_" ++
          date_iso ++ str ".pdf" =
        str "Basilicata_" ++ law_num ++ str "_" ++ date_iso ++ str ".pdf"
      rfl
    refine ⟨e, ?_⟩
    rw [e]
    exact (endsWithStr_eq_true_iff _ _).mpr
      ⟨str "Basilicata_" ++ law_num ++ str "_" ++ date_iso, by simp⟩
  · intro meta urlId
    constructor
    · simp only [Lazio.writtenFile]
      repeat
        first
          | exact endsWithStr_self _
          | apply endsWithStr_append_left
    · simp only [Lazio.writtenFile]
      repeat
        first
          | exact endsWithStr_self _
          | apply endsWithStr_append_left

/-! ## Claim C1 -/

/-- C1 counterexample: in Calabria, with the target PDF already on disk
but the key not yet in the progress set, `fetch_pdf` still performs the
HTTP download of the PDF (it must: the filename is derived from the
response); only the file write is skipped.  File existence alone does not
make processing a no-op. -/
theorem C1_counterexample_calabria_downloads_despite_file :
    (Calabria.fetch_pdf
        ⟨some ⟨200, true, none, none, []⟩, fun _ => none⟩ 1971 1
        ⟨[], [str "Calabria_1_1971-01-01.pdf"]⟩).didHttpGet = true ∧
    str "Calabria_1_1971-01-01.pdf" ∈
      (Calabria.St.mk [] [str "Calabria_1_1971-01-01.pdf"]).disk ∧
    (natStr 1971 ++ str "_" ++ natStr 1) ∉
      (Calabria.St.mk [] [str "Calabria_1_1971-01-01.pdf"]).doneKeys ∧
    (Calabria.fetch_pdf
        ⟨some ⟨200, true, none, none, []⟩, fun _ => none⟩ 1971 1
        ⟨[], [str "Calabria_1_1971-01-01.pdf"]⟩).written = none := by
  refine ⟨rfl, by decide, by decide, rfl⟩

/-- C1 (amended): a Calabria item whose key is in the progress set is
skipped outright — no HTTP request, no write, state unchanged; whenever
`fetch_pdf` writes a file it is a file that was not on disk, so an
existing file is never rewritten; and Veneto skips the download attempt
entirely when the target file exists.  File existence alone, however,
does not prevent Calabria's HTTP fetch (see the counterexample), so
re-running can re-download a law's bytes while leaving the file
untouched. -/
theorem C1_idempotence_amended :
    (∀ (env : Calabria.Env) (year lawNum : Nat) (st : Calabria.St),
      (natStr year ++ str "_" ++ natStr lawNum) ∈ st.doneKeys →
      Calabria.fetch_pdf env year lawNum st =
        ⟨none, false, st, false, none⟩) ∧
    (∀ (env : Calabria.Env) (year lawNum : Nat) (st : Calabria.St),
      (match (Calabria.fetch_pdf env year lawNum st).written with
       | none => (Calabria.fetch_pdf env year lawNum st).st.disk = st.disk
       | some f => f ∉ st.disk ∧
           (Calabria.fetch_pdf env year lawNum st).st.disk =
             st.disk ++ [f] : Prop)) ∧
    (∀ (disk : List Str) (r : Rec) (o : Veneto.DlOutcome),
      r.filename ∈ disk →
      (Veneto.processLaw disk r o).didDownload = false ∧
      (Veneto.processLaw disk r o).disk = disk) := by
  refine ⟨fun env year lawNum st hk => ?_, fun env year lawNum st => ?_,
    fun disk r o hmem => ?_⟩
  · unfold Calabria.fetch_pdf
    rw [if_pos hk]
  · have hsucc : ∀ r : Calabria.HttpResp,
        (match (Calabria.successOut env r year lawNum st).written with
         | none => (Calabria.successOut env r year lawNum st).st.disk =
             st.disk
         | some f => f ∉ st.disk ∧
             (Calabria.successOut env r year lawNum st).st.disk =
               st.disk ++ [f] : Prop) := by
      intro r
      unfold Calabria.successOut
      by_cases hf : Calabria.fetchFilename env r year lawNum ∈ st.disk
      · rw [if_pos hf]
      · rw [if_neg hf]
        exact ⟨hf, rfl⟩
    unfold Calabria.fetch_pdf
    by_cases hk : (natStr year ++ str "_" ++ natStr lawNum) ∈ st.doneKeys
    · rw [if_pos hk]
    · rw [if_neg hk]
      rcases henv : env.resp with _ | r
      · simp only [henv]
      · simp only [henv]
        by_cases hs : r.status ≠ 200
        · rw [if_pos hs]
        · rw [if_neg hs]
          by_cases hp : (!r.isPdf) = true
          · rw [if_pos hp]
          · rw [if_neg hp]
            exact hsucc r
  · unfold Veneto.processLaw
    rw [if_pos hmem]
    exact ⟨rfl, rfl⟩

/-- Witness for the amended C1 at concrete inputs. -/
theorem C1_idempotence_witness :
    Calabria.fetch_pdf ⟨none, fun _ => none⟩ 1971 1
        ⟨[str "1971_1"], []⟩ =
      ⟨none, false, ⟨[str "1971_1"], []⟩, false, none⟩ ∧
    (Veneto.processLaw [str "Veneto_1_2020-01-01.pdf"]
        ⟨str "Veneto", str "Titolo", str "1", str "1 gennaio 2020",
          str "Veneto_1_2020-01-01.pdf"⟩
        Veneto.DlOutcome.renamed).didDownload = false := by
  constructor
  · exact C1_idempotence_amended.1 _ 1971 1 _ (by decide)
  · exact (C1_idempotence_amended.2.2 _ _ Veneto.DlOutcome.renamed
      (by decide)).1

/-! ## Claim C5 -/

theorem campania_collectGo_pages_le (site : Nat → List (Option Str)) :
    ∀ (fuel page streak : Nat) (acc : List Str),
      (Campania.collectGo site fuel page streak acc).2 ≤ fuel := by
  intro fuel
  induction fuel with
  | zero => intro page streak acc; simp [Campania.collectGo]
  | succ f ih =>
    intro page streak acc
    unfold Campania.collectGo
    by_cases hc : (site page).isEmpty
    · rw [if_pos hc]
      by_cases hb : streak + 1 ≥ 3
      · rw [if_pos hb]
        exact Nat.succ_le_succ (Nat.zero_le f)
      · rw [if_neg hb]
        exact Nat.succ_le_succ (ih (page + 1) (streak + 1) acc)
    · rw [if_neg hc]
      exact Nat.succ_le_succ (ih (page + 1) 0 _)

theorem basilicata_paginate_halts (site : Nat → Basilicata.PageCtl)
    (k : Nat) (hk : site k = Basilicata.PageCtl.nothing) :
    ∀ fuel page, page ≤ k → k - page < fuel →
      (Basilicata.paginate site fuel page).isSome = true := by
  intro fuel
  induction fuel with
  | zero => intro page h1 h2; omega
  | succ f ih =>
    intro page h1 h2
    unfold Basilicata.paginate
    cases hc : site page with
    | nextNum =>
      have hlt : page < k := by
        rcases Nat.lt_or_ge page k with h | h
        · exact h
        · have he : page = k := Nat.le_antisymm h1 h
          rw [he, hk] at hc
          exact absurd hc (by decide)
      exact ih (page + 1) (by omega) (by omega)
    | ellipsisOnly =>
      have hlt : page < k := by
        rcases Nat.lt_or_ge page k with h | h
        · exact h
        · have he : page = k := Nat.le_antisymm h1 h
          rw [he, hk] at hc
          exact absurd hc (by decide)
      exact ih (page + 1) (by omega) (by omega)
    | nothing => rfl

theorem calabria_yearLoop_halts (probe : Nat → Bool) (n : Nat)
    (h10 : ∀ i, i < 10 → probe (n + i) = false) :
    ∀ fuel lawNum misses, lawNum ≤ n + misses → misses ≤ 10 →
      n + 11 ≤ lawNum + fuel →
      (Calabria.yearLoop probe fuel lawNum misses).isSome = true := by
  intro fuel
  induction fuel with
  | zero => intro lawNum misses h1 h2 h3; omega
  | succ f ih =>
    intro lawNum misses h1 h2 h3
    unfold Calabria.yearLoop
    by_cases hm : misses ≥ 10
    · rw [if_pos hm]; rfl
    · rw [if_neg hm]
      by_cases hp : probe lawNum = true
      · rw [if_pos hp]
        have hlt : lawNum < n := by
          rcases Nat.lt_or_ge lawNum n with h | h
          · exact h
          · have hi := h10 (lawNum - n) (by omega)
            rw [show n + (lawNum - n) = lawNum from by omega] at hi
            rw [hi] at hp
            exact absurd hp (by decide)
        exact ih (lawNum + 1) 0 (by omega) (by omega) (by omega)
      · rw [if_neg hp]
        exact ih (lawNum + 1) (misses + 1) (by omega) (by omega) (by omega)

/-- C5 counterexample: the scan is not "finite even if the site keeps
serving pages": against a site that always offers a next-page link,
Basilicata's pagination loop never stops, and against a site that serves
a PDF for every probed law number, Calabria's per-year loop never
stops — no iteration bound makes either reach its stopping condition. -/
theorem C5_counterexample_unbounded_scan :
    basPaginateRunsForever ∧ calYearLoopRunsForever := by
  constructor
  · intro fuel
    induction fuel with
    | zero => intro page; rfl
    | succ f ih =>
      intro page
      exact ih (page + 1)
  · intro fuel
    induction fuel with
    | zero => intro lawNum; rfl
    | succ f ih =>
      intro lawNum
      exact ih (lawNum + 1)

/-- C5 (amended): the page loops stop when their stopping conditions are
met — Campania's scan is hard-bounded at 149 listing pages regardless of
the site; Basilicata's pagination stops once some reachable page offers
neither a next-number link nor an ellipsis; Calabria's per-year probing
stops once 10 consecutive law numbers miss.  Without such a page or miss
window the Basilicata and Calabria loops do not terminate (see the
counterexample). -/
theorem C5_termination_amended :
    (∀ (site : Nat → List (Option Str)) (fuel page streak : Nat)
        (acc : List Str),
      (Campania.collectGo site fuel page streak acc).2 ≤ fuel) ∧
    (∀ (site : Nat → Basilicata.PageCtl) (k page fuel : Nat),
      site k = Basilicata.PageCtl.nothing → page ≤ k → k - page < fuel →
      (Basilicata.paginate site fuel page).isSome = true) ∧
    (∀ (probe : Nat → Bool) (n fuel lawNum : Nat),
      (∀ i, i < 10 → probe (n + i) = false) → lawNum ≤ n →
      n + 11 ≤ lawNum + fuel →
      (Calabria.yearLoop probe fuel lawNum 0).isSome = true) :=
  ⟨fun site fuel page streak acc =>
      campania_collectGo_pages_le site fuel page streak acc,
   fun site k page fuel hk h1 h2 =>
      basilicata_paginate_halts site k hk fuel page h1 h2,
   fun probe n fuel lawNum h10 hle hf =>
      calabria_yearLoop_halts probe n h10 fuel lawNum 0 (by omega)
        (by omega) (by omega)⟩

/-- Witness for the amended C5 at concrete sites. -/
theorem C5_termination_witness :
    (Campania.collectGo (fun _ => []) 149 1 0 []).2 ≤ 149 ∧
    (Basilicata.paginate
      (fun p => if p < 3 then Basilicata.PageCtl.nextNum
        else Basilicata.PageCtl.nothing) 10 1).isSome = true ∧
    (Calabria.yearLoop (fun m => decide (m < 2)) 13 1 0).isSome = true := by
  refine ⟨C5_termination_amended.1 _ 149 1 0 [],
    C5_termination_amended.2.1 _ 3 1 10 (by decide) (by omega) (by omega),
    C5_termination_amended.2.2 _ 2 13 1 ?_ (by omega) (by omega)⟩
  intro i hi
  rw [decide_eq_false_iff_not]
  omega

/-! ## Claim C10 -/

theorem dropWhile_head_false {α : Type} (p : α → Bool) (l : List α) :
    ∀ c rest, l.dropWhile p = c :: rest → p c = false := by
  induction l with
  | nil => intro c rest h; simp at h
  | cons x xs ih =>
    intro c rest h
    rw [List.dropWhile_cons] at h
    by_cases hp : p x = true
    · rw [if_pos hp] at h
      exact ih c rest h
    · rw [if_neg hp] at h
      injection h with h1 _
      subst h1
      simpa using hp

theorem mem_dropWhile_of_not {α : Type} (p : α → Bool) (l : List α)
    (c : α) (hc : c ∈ l) (hp : p c = false) : c ∈ l.dropWhile p := by
  rw [← List.takeWhile_append_dropWhile p l] at hc
  rcases List.mem_append.mp hc with h1 | h2
  · have := List.mem_takeWhile_imp h1
    rw [hp] at this
    cases this
  · exact h2

theorem mem_of_mem_dropWhile {α : Type} (p : α → Bool) (l : List α)
    (c : α) (hc : c ∈ l.dropWhile p) : c ∈ l := by
  rw [← List.takeWhile_append_dropWhile p l]
  exact List.mem_append.mpr (Or.inr hc)

theorem mem_of_mem_pyStrip (l : Str) (c : Char) (hc : c ∈ pyStrip l) :
    c ∈ l := by
  unfold pyStrip at hc
  rw [List.mem_reverse] at hc
  have h2 := mem_of_mem_dropWhile _ _ _ hc
  rw [List.mem_reverse] at h2
  exact mem_of_mem_dropWhile _ _ _ h2

theorem mem_pyStrip_of_not_space (l : Str) (c : Char) (hc : c ∈ l)
    (hp : pyIsSpace c = false) : c ∈ pyStrip l := by
  unfold pyStrip
  rw [List.mem_reverse]
  refine mem_dropWhile_of_not _ _ _ ?_ hp
  rw [List.mem_reverse]
  exact mem_dropWhile_of_not _ _ _ hc hp

theorem pyStrip_head_not_space (l : Str) (c : Char) (rest : Str)
    (h : pyStrip l = c :: rest) : pyIsSpace c = false := by
  unfold pyStrip at h
  have hsplit := List.takeWhile_append_dropWhile pyIsSpace
    (l.dropWhile pyIsSpace).reverse
  have hrev := congrArg List.reverse hsplit
  rw [List.reverse_append, List.reverse_reverse, h, List.cons_append]
    at hrev
  exact dropWhile_head_false pyIsSpace l c _ hrev.symm

theorem pyStrip_getLast_not_space (l : Str) (c : Char)
    (h : (pyStrip l).getLast? = some c) : pyIsSpace c = false := by
  unfold pyStrip at h
  rw [List.getLast?_reverse] at h
  rcases hd : (l.dropWhile pyIsSpace).reverse.dropWhile pyIsSpace
    with _ | ⟨x, xs⟩
  · rw [hd] at h
    simp at h
  · rw [hd] at h
    have hxc : x = c := by simpa using h
    subst hxc
    exact dropWhile_head_false _ _ _ _ hd

theorem mem_collapseWsGo (l : Str) :
    ∀ (b : Bool) (c : Char), c ∈ Lazio.collapseWsGo b l →
      c = ' ' ∨ (c ∈ l ∧ pyIsSpace c = false) := by
  induction l with
  | nil => intro b c h; simp [Lazio.collapseWsGo] at h
  | cons x xs ih =>
    intro b c h
    by_cases hx : pyIsSpace x = true
    · cases b with
      | true =>
        rw [show Lazio.collapseWsGo true (x :: xs) =
            Lazio.collapseWsGo true xs from by
          simp [Lazio.collapseWsGo, hx]] at h
        rcases ih true c h with h1 | ⟨h2, h3⟩
        · exact Or.inl h1
        · exact Or.inr ⟨List.mem_cons_of_mem _ h2, h3⟩
      | false =>
        rw [show Lazio.collapseWsGo false (x :: xs) =
            ' ' :: Lazio.collapseWsGo true xs from by
          simp [Lazio.collapseWsGo, hx]] at h
        rcases List.mem_cons.mp h with rfl | h
        · exact Or.inl rfl
        · rcases ih true c h with h1 | ⟨h2, h3⟩
          · exact Or.inl h1
          · exact Or.inr ⟨List.mem_cons_of_mem _ h2, h3⟩
    · rw [show Lazio.collapseWsGo b (x :: xs) =
          x :: Lazio.collapseWsGo false xs from by
        simp [Lazio.collapseWsGo, hx]] at h
      rcases List.mem_cons.mp h with rfl | h
      · exact Or.inr ⟨List.mem_cons_self _ _, by simpa using hx⟩
      · rcases ih false c h with h1 | ⟨h2, h3⟩
        · exact Or.inl h1
        · exact Or.inr ⟨List.mem_cons_of_mem _ h2, h3⟩

theorem mem_collapseWsGo_of (l : Str) :
    ∀ (b : Bool) (c : Char), c ∈ l → pyIsSpace c = false →
      c ∈ Lazio.collapseWsGo b l := by
  induction l with
  | nil => intro b c h _; simp at h
  | cons x xs ih =>
    intro b c hc hp
    by_cases hx : pyIsSpace x = true
    · have hcx : c ∈ xs := by
        rcases List.mem_cons.mp hc with rfl | h
        · rw [hx] at hp; cases hp
        · exact h
      cases b with
      | true =>
        rw [show Lazio.collapseWsGo true (x :: xs) =
            Lazio.collapseWsGo true xs from by
          simp [Lazio.collapseWsGo, hx]]
        exact ih true c hcx hp
      | false =>
        rw [show Lazio.collapseWsGo false (x :: xs) =
            ' ' :: Lazio.collapseWsGo true xs from by
          simp [Lazio.collapseWsGo, hx]]
        exact List.mem_cons_of_mem _ (ih true c hcx hp)
    · rw [show Lazio.collapseWsGo b (x :: xs) =
          x :: Lazio.collapseWsGo false xs from by
        simp [Lazio.collapseWsGo, hx]]
      rcases List.mem_cons.mp hc with rfl | h
      · exact List.mem_cons_self _ _
      · exact List.mem_cons_of_mem _ (ih false c h hp)

theorem chain'_dropWhile (p : Char → Bool) (l : Str)
    (h : List.Chain' spacedApart l) :
    List.Chain' spacedApart (l.dropWhile p) := by
  rw [← List.takeWhile_append_dropWhile p l] at h
  exact (List.chain'_append.mp h).2.1

theorem chain'_reverse_spaced (l : Str)
    (h : List.Chain' spacedApart l) :
    List.Chain' spacedApart l.reverse := by
  rw [List.chain'_reverse]
  exact h.imp (fun a b hab => fun hba => hab ⟨hba.2, hba.1⟩)

theorem chain'_collapseWsGo (l : Str) :
    List.Chain' spacedApart (Lazio.collapseWsGo false l) ∧
    List.Chain' spacedApart (Lazio.collapseWsGo true l) ∧
    (∀ c, (Lazio.collapseWsGo true l).head? = some c → c ≠ ' ') := by
  induction l with
  | nil =>
    refine ⟨List.chain'_nil, List.chain'_nil, fun c h => ?_⟩
    simp [Lazio.collapseWsGo] at h
  | cons x xs ih =>
    obtain ⟨ihF, ihT, ihH⟩ := ih
    by_cases hx : pyIsSpace x = true
    · have eT : Lazio.collapseWsGo true (x :: xs) =
          Lazio.collapseWsGo true xs := by
        simp [Lazio.collapseWsGo, hx]
      have eF : Lazio.collapseWsGo false (x :: xs) =
          ' ' :: Lazio.collapseWsGo true xs := by
        simp [Lazio.collapseWsGo, hx]
      refine ⟨?_, ?_, ?_⟩
      · rw [eF, List.chain'_cons']
        refine ⟨fun y hy => ?_, ihT⟩
        have hne : y ≠ ' ' := ihH y (Option.mem_def.mp hy)
        exact fun hp => hne hp.2
      · rw [eT]; exact ihT
      · rw [eT]; exact ihH
    · have hxs : x ≠ ' ' := by
        intro he
        rw [he] at hx
        exact hx (by decide)
      have eB : ∀ b, Lazio.collapseWsGo b (x :: xs) =
          x :: Lazio.collapseWsGo false xs := by
        intro b
        simp [Lazio.collapseWsGo, hx]
      refine ⟨?_, ?_, ?_⟩
      · rw [eB false, List.chain'_cons']
        exact ⟨fun y _ => fun hp => hxs hp.1, ihF⟩
      · rw [eB true, List.chain'_cons']
        exact ⟨fun y _ => fun hp => hxs hp.1, ihF⟩
      · rw [eB true]
        intro c h
        have hxc : x = c := by simpa using h
        subst hxc
        exact hxs

theorem chain'_pyStrip (l : Str) (h : List.Chain' spacedApart l) :
    List.Chain' spacedApart (pyStrip l) := by
  unfold pyStrip
  exact chain'_reverse_spaced _ (chain'_dropWhile _ _
    (chain'_reverse_spaced _ (chain'_dropWhile _ _ h)))

theorem noDoubleSpace_iff (l : Str) :
    noDoubleSpace l = true ↔ List.Chain' spacedApart l := by
  induction l with
  | nil => simp [noDoubleSpace]
  | cons a t ih =>
    cases t with
    | nil => simp [noDoubleSpace]
    | cons b rest =>
      rw [List.chain'_cons,
        show noDoubleSpace (a :: b :: rest) =
          (!(a == ' ' && b == ' ') && noDoubleSpace (b :: rest)) from rfl,
        Bool.and_eq_true, ih]
      constructor
      · rintro ⟨h1, h2⟩
        refine ⟨fun hp => ?_, h2⟩
        rw [hp.1, hp.2] at h1
        simp at h1
      · rintro ⟨h1, h2⟩
        refine ⟨?_, h2⟩
        by_cases ha : a = ' '
        · by_cases hb : b = ' '
          · exact absurd ⟨ha, hb⟩ h1
          · simp [hb]
        · simp [ha]

theorem dashSlash_not_slash (a : Char) :
    Lazio.dashSlash a ≠ '/' ∧ Lazio.dashSlash a ≠ '\\' := by
  unfold Lazio.dashSlash
  by_cases h : a = '/' ∨ a = '\\'
  · rw [if_pos h]
    exact ⟨by decide, by decide⟩
  · rw [if_neg h]
    push_neg at h
    exact ⟨h.1, h.2⟩

/-- C10 counterexample: leading (and trailing) whitespace runs are not
collapsed to single spaces — they are removed entirely by the final
strip: `sanitize_filename_keep_spaces(" a")` is `"a"`, not `" a"`. -/
theorem C10_counterexample_lazio_strip :
    Lazio.sanitize_filename_keep_spaces (some (str " a")) = str "a" ∧
    str "a" ≠ str " a" := by
  exact ⟨rfl, by decide⟩

/-- C10 (amended): `sanitize_filename_keep_spaces` is total; `None` and
the empty string map to "Unknown"; no output contains `* : ? " < > |`,
`/` or `\`; every slash or backslash of the input leaves a dash in the
output; interior whitespace runs are collapsed to single plain spaces
(the only whitespace character of the output is `' '`, never doubled),
while leading and trailing whitespace is removed entirely — the result
neither starts nor ends with whitespace. -/
theorem C10_sanitize_amended :
    (Lazio.sanitize_filename_keep_spaces none = str "Unknown" ∧
     Lazio.sanitize_filename_keep_spaces (some []) = str "Unknown") ∧
    (∀ (s : Str) (c : Char),
      c ∈ Lazio.sanitize_filename_keep_spaces (some s) →
      Lazio.illegalChars.contains c = false ∧ c ≠ '/' ∧ c ≠ '\\' ∧
      (pyIsSpace c = true → c = ' ')) ∧
    (∀ (s : Str) (c : Char) (rest : Str),
      Lazio.sanitize_filename_keep_spaces (some s) = c :: rest →
      pyIsSpace c = false) ∧
    (∀ (s : Str) (c : Char),
      (Lazio.sanitize_filename_keep_spaces (some s)).getLast? = some c →
      pyIsSpace c = false) ∧
    (∀ s : Str,
      noDoubleSpace (Lazio.sanitize_filename_keep_spaces (some s)) =
        true) ∧
    (∀ s : Str, '/' ∈ s →
      '-' ∈ Lazio.sanitize_filename_keep_spaces (some s)) ∧
    (∀ s : Str, '\\' ∈ s →
      '-' ∈ Lazio.sanitize_filename_keep_spaces (some s)) := by
  have hunfold : ∀ s : Str, s.isEmpty = false →
      Lazio.sanitize_filename_keep_spaces (some s) =
        pyStrip (Lazio.collapseWs ((s.map Lazio.dashSlash).filter
          (fun c => !Lazio.illegalChars.contains c))) := by
    intro s hs
    simp [Lazio.sanitize_filename_keep_spaces, hs]
  have hdash : ∀ (s : Str) (a : Char), a ∈ s →
      (a = '/' ∨ a = '\\') →
      '-' ∈ Lazio.sanitize_filename_keep_spaces (some s) := by
    intro s a ha hsl
    have hne : s.isEmpty = false := by
      cases s with
      | nil => cases ha
      | cons x xs => rfl
    rw [hunfold s hne]
    refine mem_pyStrip_of_not_space _ _ ?_ (by decide)
    refine mem_collapseWsGo_of _ _ _ ?_ (by decide)
    refine List.mem_filter.mpr ⟨?_, by decide⟩
    refine List.mem_map.mpr ⟨a, ha, ?_⟩
    rcases hsl with rfl | rfl
    · rfl
    · rfl
  refine ⟨⟨rfl, rfl⟩, fun s c hc => ?_, fun s c rest hc => ?_,
    fun s c hc => ?_, fun s => ?_, fun s h => hdash s _ h (Or.inl rfl),
    fun s h => hdash s _ h (Or.inr rfl)⟩
  · by_cases hs : s.isEmpty = true
    · rw [show Lazio.sanitize_filename_keep_spaces (some s) =
          str "Unknown" from by
        simp [Lazio.sanitize_filename_keep_spaces, hs]] at hc
      revert hc
      revert c
      decide
    · rw [hunfold s (by simpa using hs)] at hc
      have h1 := mem_of_mem_pyStrip _ _ hc
      rcases mem_collapseWsGo _ _ _ h1 with rfl | ⟨h2, h3⟩
      · exact ⟨by decide, by decide, by decide, fun _ => rfl⟩
      · have h4 := List.mem_filter.mp h2
        rcases List.mem_map.mp h4.1 with ⟨a, _, rfl⟩
        refine ⟨?_, (dashSlash_not_slash a).1, (dashSlash_not_slash a).2,
          fun hsp => ?_⟩
        · have := h4.2
          cases hcc : Lazio.illegalChars.contains (Lazio.dashSlash a)
          · rfl
          · rw [hcc] at this
            cases this
        · rw [hsp] at h3
          cases h3
  · by_cases hs : s.isEmpty = true
    · rw [show Lazio.sanitize_filename_keep_spaces (some s) =
          str "Unknown" from by
        simp [Lazio.sanitize_filename_keep_spaces, hs]] at hc
      have : 'U' = c := by
        have h2 : ('U' :: str "nknown") = c :: rest := hc
        injection h2
      subst this
      decide
    · rw [hunfold s (by simpa using hs)] at hc
      exact pyStrip_head_not_space _ _ _ hc
  · by_cases hs : s.isEmpty = true
    · rw [show Lazio.sanitize_filename_keep_spaces (some s) =
          str "Unknown" from by
        simp [Lazio.sanitize_filename_keep_spaces, hs]] at hc
      have : some 'n' = some c := hc
      have hcn : 'n' = c := by injection this
      subst hcn
      decide
    · rw [hunfold s (by simpa using hs)] at hc
      exact pyStrip_getLast_not_space _ _ hc
  · by_cases hs : s.isEmpty = true
    · rw [show Lazio.sanitize_filename_keep_spaces (some s) =
          str "Unknown" from by
        simp [Lazio.sanitize_filename_keep_spaces, hs]]
      rfl
    · rw [hunfold s (by simpa using hs)]
      exact (noDoubleSpace_iff _).mpr
        (chain'_pyStrip _ (chain'_collapseWsGo _).1)

/-- Witness for the amended C10 at a concrete input. -/
theorem C10_sanitize_witness :
    (Lazio.illegalChars.contains '-' = false ∧ '-' ≠ '/' ∧ '-' ≠ '\\' ∧
      (pyIsSpace '-' = true → '-' = ' ')) ∧
    pyIsSpace 'a' = false ∧
    noDoubleSpace
      (Lazio.sanitize_filename_keep_spaces (some (str "a/b  c"))) =
      true ∧
    '-' ∈ Lazio.sanitize_filename_keep_spaces (some (str "a/b  c")) := by
  refine ⟨C10_sanitize_amended.2.1 (str "a/b  c") '-' (by decide),
    C10_sanitize_amended.2.2.1 (str "a/b  c") 'a' (str "-b c") rfl,
    C10_sanitize_amended.2.2.2.2.1 (str "a/b  c"),
    C10_sanitize_amended.2.2.2.2.2.1 (str "a/b  c") (by decide)⟩

/-! ## Claim C2 -/

theorem basilicata_rowStep_keeps (st : Basilicata.RowData) (c : Str)
    (hdate : ∀ s ∈ (Basilicata.clean_text c).tails,
      Basilicata.dateHere s = none)
    (hdigit : firstDigitRun (Basilicata.clean_text c) = none) :
    (Basilicata.rowStep st c).law_num = st.law_num ∧
    (Basilicata.rowStep st c).date_iso = st.date_iso ∧
    (Basilicata.rowStep st c).excel_date = st.excel_date := by
  simp only [Basilicata.rowStep]
  by_cases he : (Basilicata.clean_text c).isEmpty = true
  · rw [if_pos he]
    exact ⟨rfl, rfl, rfl⟩
  · rw [if_neg he, findSuffix_eq_none _ _ hdate]
    by_cases hl : (Basilicata.clean_text c).length < 15
    · rw [if_pos hl, hdigit]
      exact ⟨rfl, rfl, rfl⟩
    · rw [if_neg hl]
      exact ⟨rfl, rfl, rfl⟩

theorem basilicata_fold_keeps (cols : List Str) :
    ∀ st : Basilicata.RowData,
      (∀ c ∈ cols,
        (∀ s ∈ (Basilicata.clean_text c).tails,
          Basilicata.dateHere s = none) ∧
        firstDigitRun (Basilicata.clean_text c) = none) →
      (cols.foldl Basilicata.rowStep st).law_num = st.law_num ∧
      (cols.foldl Basilicata.rowStep st).date_iso = st.date_iso ∧
      (cols.foldl Basilicata.rowStep st).excel_date = st.excel_date := by
  induction cols with
  | nil => intro st _; exact ⟨rfl, rfl, rfl⟩
  | cons c cs ih =>
    intro st h
    have hc := h c (List.mem_cons_self _ _)
    have hstep := basilicata_rowStep_keeps st c hc.1 hc.2
    rw [List.foldl_cons]
    have hrest := ih (Basilicata.rowStep st c)
      (fun x hx => h x (List.mem_cons_of_mem _ hx))
    exact ⟨hrest.1.trans hstep.1, hrest.2.1.trans hstep.2.1,
      hrest.2.2.trans hstep.2.2⟩

/-- C2 counterexample: in Basilicata, a row whose columns match no
law-number pattern and no date pattern yields law number "0", not
"Unknown" — the claimed "Unknown" fallback for the law number does not
hold in every script. -/
theorem C2_counterexample_basilicata_zero :
    Basilicata.get_row_data [str "Qualche titolo descrittivo"] =
      (str "0", str "0000-00-00", str "Unknown",
        str "Qualche titolo descrittivo") ∧
    str "0" ≠ str "Unknown" := by
  exact ⟨rfl, by decide⟩

/-- C2 (amended): when no pattern matches, Lombardia's
`extract_from_list_text` returns ("Unknown", "0000-00-00", ""); Valle
d'Aosta's `parse_metadata` returns date "Unknown" / "0000-00-00" when the
date pattern does not match and law number "0" (not "Unknown") when the
number pattern does not match; Basilicata's `get_row_data` keeps law
number "0" (not "Unknown"), ISO date "0000-00-00" and display date
"Unknown" when no column matches. -/
theorem C2_fallbacks_amended :
    (∀ text : Str,
      (∀ s ∈ (pyStrip (pyLower text)).tails,
        Lombardia.matchHere s = none) →
      Lombardia.extract_from_list_text text =
        (str "Unknown", str "0000-00-00", [])) ∧
    (∀ header : Str,
      ((∀ s ∈ header.tails, Aosta.dateHere s = none) →
        (Aosta.parse_metadata header).1 = str "Unknown" ∧
        (Aosta.parse_metadata header).2.1 = str "0000-00-00") ∧
      ((∀ s ∈ header.tails, Aosta.numHere s = none) →
        (Aosta.parse_metadata header).2.2 = str "0")) ∧
    (∀ cols : List Str,
      (∀ c ∈ cols,
        (∀ s ∈ (Basilicata.clean_text c).tails,
          Basilicata.dateHere s = none) ∧
        firstDigitRun (Basilicata.clean_text c) = none) →
      (Basilicata.get_row_data cols).1 = str "0" ∧
      (Basilicata.get_row_data cols).2.1 = str "0000-00-00" ∧
      (Basilicata.get_row_data cols).2.2.1 = str "Unknown") := by
  refine ⟨fun text hm => ?_, fun header => ⟨fun hd => ?_, fun hn => ?_⟩,
    fun cols h => ?_⟩
  · simp only [Lombardia.extract_from_list_text]
    rw [findSuffix_eq_none _ _ hm]
  · simp only [Aosta.parse_metadata]
    rw [findSuffix_eq_none _ _ hd]
    exact ⟨rfl, rfl⟩
  · simp only [Aosta.parse_metadata]
    rw [findSuffix_eq_none _ _ hn]
  · have hk := basilicata_fold_keeps cols
      ⟨str "0", str "0000-00-00", str "Unknown", []⟩ h
    simp only [Basilicata.get_row_data]
    exact ⟨hk.1, hk.2.1, hk.2.2⟩

/-- Witness for the amended C2 at concrete page texts. -/
theorem C2_fallbacks_witness :
    Lombardia.extract_from_list_text (str "nessuna legge qui") =
      (str "Unknown", str "0000-00-00", []) ∧
    (Aosta.parse_metadata (str "intestazione senza dati")).1 =
      str "Unknown" ∧
    (Aosta.parse_metadata (str "intestazione senza dati")).2.2 =
      str "0" ∧
    (Basilicata.get_row_data [str "testo"]).1 = str "0" := by
  refine ⟨C2_fallbacks_amended.1 (str "nessuna legge qui") (by decide),
    ((C2_fallbacks_amended.2.1 (str "intestazione senza dati")).1
      (by decide)).1,
    (C2_fallbacks_amended.2.1 (str "intestazione senza dati")).2
      (by decide),
    (C2_fallbacks_amended.2.2 [str "testo"] (by decide)).1⟩

/-! ## Claim C8 -/

theorem parseCI_some (pat t pre rest : Str)
    (h : parseCI pat t = some (pre, rest)) :
    t = pre ++ rest ∧ pyLower pre = pat := by
  unfold parseCI at h
  split at h
  · rename_i hc
    have h1 := Option.some.inj h
    have h2 : pre = t.take pat.length := (congrArg Prod.fst h1).symm
    have h3 : rest = t.drop pat.length := (congrArg Prod.snd h1).symm
    subst h2
    subst h3
    exact ⟨(List.take_append_drop _ _).symm, hc⟩
  · cases h

theorem parseCI_of (pat pre rest : Str) (hlow : pyLower pre = pat) :
    parseCI pat (pre ++ rest) = some (pre, rest) := by
  unfold parseCI
  have hlen : pre.length = pat.length := by
    rw [← hlow]
    simp [pyLower]
  rw [← hlen, List.take_left, List.drop_left, if_pos hlow]

theorem dropWhile_append_all {α : Type} (p : α → Bool) (ws rest : List α)
    (h : ∀ c ∈ ws, p c = true) :
    (ws ++ rest).dropWhile p = rest.dropWhile p := by
  induction ws with
  | nil => rfl
  | cons w ws ih =>
    rw [List.cons_append, List.dropWhile_cons,
      if_pos (h w (List.mem_cons_self _ _))]
    exact ih (fun c hc => h c (List.mem_cons_of_mem _ hc))

theorem dropWhile_cons_false {α : Type} (p : α → Bool) (x : α)
    (xs : List α) (h : p x = false) :
    (x :: xs).dropWhile p = x :: xs := by
  rw [List.dropWhile_cons, if_neg (by simp [h])]

theorem pyIsSpace_of_toLower_a (c : Char) (h : Char.toLower c = 'a') :
    pyIsSpace c = false := by
  by_cases hs : pyIsSpace c = true
  · have hd : c = ' ' ∨ c = '\t' ∨ c = '\n' ∨ c = '\r' ∨
        c = Char.ofNat 11 ∨ c = Char.ofNat 12 := by
      simpa [pyIsSpace] using hs
    rcases hd with rfl | rfl | rfl | rfl | rfl | rfl <;>
      exact absurd h (by decide)
  · simpa using hs

theorem piemonte_is_law_abrogated_iff (text : Str) :
    Piemonte.is_law_abrogated text = true ↔ piemonteMarker text := by
  unfold Piemonte.is_law_abrogated
  rw [findSuffix_isSome_iff]
  constructor
  · rintro ⟨s, hs, hsome⟩
    rcases (List.mem_tails _ _).mp hs with ⟨pre, hpre⟩
    rcases s with _ | ⟨c, r⟩
    · simp [Piemonte.abrogataHere] at hsome
    · simp only [Piemonte.abrogataHere] at hsome
      by_cases hc : c = '('
      · subst hc
        rw [if_pos rfl] at hsome
        rcases hp : parseCI (str "abrogata") (r.dropWhile pyIsSpace)
          with _ | ⟨core, r2⟩
        · simp [hp] at hsome
        · simp only [hp] at hsome
          obtain ⟨hsplit, hlow⟩ := parseCI_some _ _ _ _ hp
          rcases hd2 : r2.dropWhile pyIsSpace with _ | ⟨c2, post⟩
          · simp [hd2] at hsome
          · simp only [hd2] at hsome
            by_cases hc2 : c2 = ')'
            · subst hc2
              have hr : r = r.takeWhile pyIsSpace ++ (core ++
                  (r2.takeWhile pyIsSpace ++ ')' :: post)) := by
                conv_lhs =>
                  rw [← List.takeWhile_append_dropWhile pyIsSpace r]
                rw [hsplit]
                congr 1
                congr 1
                conv_lhs =>
                  rw [← List.takeWhile_append_dropWhile pyIsSpace r2]
                rw [hd2]
              refine ⟨pre, r.takeWhile pyIsSpace, core,
                r2.takeWhile pyIsSpace, post, ?_, ?_, ?_, hlow⟩
              · rw [← hpre]
                exact congrArg (fun z => pre ++ '(' :: z) hr
              · exact fun x hx => List.mem_takeWhile_imp hx
              · exact fun x hx => List.mem_takeWhile_imp hx
            · rw [if_neg hc2] at hsome
              simp at hsome
      · rw [if_neg hc] at hsome
        simp at hsome
  · rintro ⟨pre, ws1, core, ws2, post, hdec, hws1, hws2, hlow⟩
    refine ⟨'(' :: (ws1 ++ (core ++ (ws2 ++ ')' :: post))), ?_, ?_⟩
    · exact (List.mem_tails _ _).mpr ⟨pre, hdec.symm⟩
    · rcases core with _ | ⟨c0, core'⟩
      · rw [show pyLower [] = ([] : Str) from rfl] at hlow
        cases hlow
      · have htl : Char.toLower c0 = 'a' := by
          have h0 : Char.toLower c0 :: pyLower core' = str "abrogata" :=
            hlow
          injection h0
        have hc0 : pyIsSpace c0 = false := pyIsSpace_of_toLower_a _ htl
        have e1 : (ws1 ++ ((c0 :: core') ++
            (ws2 ++ ')' :: post))).dropWhile pyIsSpace =
            (c0 :: core') ++ (ws2 ++ ')' :: post) := by
          rw [dropWhile_append_all _ _ _ hws1, List.cons_append]
          exact dropWhile_cons_false _ _ _ hc0
        have e2 : parseCI (str "abrogata")
            ((c0 :: core') ++ (ws2 ++ ')' :: post)) =
            some (c0 :: core', ws2 ++ ')' :: post) :=
          parseCI_of _ _ _ hlow
        have e3 : (ws2 ++ ')' :: post).dropWhile pyIsSpace =
            ')' :: post := by
          rw [dropWhile_append_all _ _ _ hws2]
          exact dropWhile_cons_false _ _ _ (by decide)
        have habro : Piemonte.abrogataHere
            ('(' :: (ws1 ++ ((c0 :: core') ++ (ws2 ++ ')' :: post)))) =
            some () := by
          simp only [Piemonte.abrogataHere, e1, e2, e3]
          simp
        rw [habro]
        rfl

/-- C8: the abrogation filters skip exactly the marked laws.  In
Piemonte, `process_law_worker` returns no record with status
"Skipped (Abrogated)" precisely when the page text contains `(Abrogata)`
with optional internal whitespace, case-insensitively; in Valle d'Aosta,
`process_law` takes its abrogation exit (before the existing-file check
and the download) precisely when the lowercased, apostrophe-normalised
page text contains one of the fixed `ABROGATION_INDICATORS` substrings. -/
theorem C8_abrogation_markers :
    (∀ (page_text : Str) (meta : Rec) (pdfOk : Bool),
      ((Piemonte.worker page_text meta pdfOk).2 =
          str "Skipped (Abrogated)" ∧
        (Piemonte.worker page_text meta pdfOk).1 = none) ↔
      piemonteMarker page_text) ∧
    (∀ (page_text : Str) (fileExists : Bool),
      Aosta.processGate page_text fileExists = Aosta.Gate.abrogatedSkip ↔
      ∃ ind ∈ Aosta.ABROGATION_INDICATORS, ∃ pre post,
        Aosta.normalize page_text = pre ++ ind ++ post) := by
  constructor
  · intro page_text meta pdfOk
    by_cases ha : Piemonte.is_law_abrogated page_text = true
    · constructor
      · intro _
        exact (piemonte_is_law_abrogated_iff page_text).mp ha
      · intro _
        unfold Piemonte.worker
        rw [if_pos ha]
        exact ⟨rfl, rfl⟩
    · constructor
      · intro hcontra
        unfold Piemonte.worker at hcontra
        rw [if_neg ha] at hcontra
        cases pdfOk
        · have h1 : str "Failed (Empty)" = str "Skipped (Abrogated)" :=
            hcontra.1
          exact absurd h1 (by decide)
        · have h1 : str "Downloaded" = str "Skipped (Abrogated)" :=
            hcontra.1
          exact absurd h1 (by decide)
      · intro hm
        exact absurd ((piemonte_is_law_abrogated_iff page_text).mpr hm) ha
  · intro page_text fileExists
    unfold Aosta.processGate
    by_cases ha : Aosta.is_law_abrogated page_text = true
    · rw [if_pos ha]
      constructor
      · intro _
        unfold Aosta.is_law_abrogated at ha
        by_cases he : page_text.isEmpty = true
        · rw [if_pos he] at ha
          cases ha
        · rw [if_neg he] at ha
          rcases List.any_eq_true.mp ha with ⟨ind, hind, hcs⟩
          rcases (containsSub_iff _ _).mp hcs with ⟨pre, post, hdec⟩
          exact ⟨ind, hind, pre, post, hdec⟩
      · intro _
        rfl
    · rw [if_neg ha]
      constructor
      · intro h
        by_cases hf : fileExists = true
        · rw [if_pos hf] at h
          exact absurd h (by decide)
        · rw [if_neg hf] at h
          exact absurd h (by decide)
      · rintro ⟨ind, hind, pre, post, hdec⟩
        exfalso
        apply ha
        unfold Aosta.is_law_abrogated
        have hempty : ∀ i ∈ Aosta.ABROGATION_INDICATORS, i ≠ [] := by
          decide
        rcases hpt : page_text with _ | ⟨x, xs⟩
        · rw [hpt] at hdec
          rw [show Aosta.normalize [] = [] from rfl] at hdec
          rcases List.append_eq_nil.mp hdec.symm with ⟨h1, _⟩
          rcases List.append_eq_nil.mp h1 with ⟨_, h2⟩
          exact absurd h2 (hempty ind hind)
        · rw [hpt] at hdec
          rw [show (x :: xs).isEmpty = false from rfl, if_neg (by simp)]
          exact List.any_eq_true.mpr
            ⟨ind, hind, (containsSub_iff _ _).mpr ⟨pre, post, hdec⟩⟩

end LeggiScraper
